import Mathlib

/-!
Shallow embedding of the `DataWriter` buffered writer of `src/handler.py`
(class `DataWriter`, lines 287-352), together with the sink contract it
depends on (`Handler.write(data, table)`), and proofs of the specified
buffering/flush properties.

Modelling choices:
* A Python `dict` is embedded as an association list that keeps insertion
  order (`_buf_size` reads the *first* key of the buffer dict) with
  no duplicate keys expected; record well-formedness (`FullRecord`) carries
  the no-duplicate-keys fact where a proof needs it.
* Scalar record values are embedded as `Int`.
* The external sink (`self._handler.write`) is embedded as a boolean
  oracle `sinkOk : Buffer → String → Bool` saying whether a given call
  succeeds or raises; each operation returns the resulting writer state,
  the list of sink invocations it performed, and whether an exception
  propagated out of it (`raised`).  When an exception propagates, the
  writer state in the result is the object state at the moment of the
  raise, exactly as the Python object would be left.
* The base class `_reset_buffer` raises `NotImplementedError`
  (handler.py:310-315); the repository contains no subclass, so the
  subclass resetter is modelled from the spec (see `spec_reset_buffer`).
-/

/-- A column-oriented buffer: field name to ordered value sequence,
in insertion order (embedding of the Python dict `self._buffer`). -/
abbrev Buffer := List (String × List Int)

/-- One data record: field name to scalar value (embedding of the Python
dict `data` passed to `write`). -/
abbrev Record := List (String × Int)

/-- State of a `DataWriter` instance: the recognized field names (fixed by
the subclass resetter), the buffer, `self._buf_capacity` and `self._table`. -/
structure DataWriter where
  fields : List String
  buffer : Buffer
  capacity : Int
  table : String
deriving DecidableEq

/-- One invocation of the sink `self._handler.write(data, table)`
(handler.py:339): the buffer content passed and the destination table. -/
structure SinkCall where
  data : Buffer
  table : String
deriving DecidableEq

/-- Result of running one (or several) writer operations: the writer state
afterwards (at the moment of the raise, if one propagated), the sink
invocations performed, and whether an exception propagated to the caller. -/
structure StepResult where
  writer : DataWriter
  calls : List SinkCall
  raised : Bool
deriving DecidableEq

/-- A fresh empty column for each recognized field, in order. -/
def resetList (fields : List String) : Buffer :=
  fields.map (fun f => (f, []))

/-- The base class `DataWriter._reset_buffer` (handler.py:310-315): it
unconditionally raises `NotImplementedError`. -/
def base_reset_buffer : Except Unit Buffer :=
  Except.error ()

/-- `DataWriter.__init__` (handler.py:295-308) on the base class: stores the
configuration and then calls `self._reset_buffer()`, which raises in the
base class, so no base-class instance is ever produced.  Note there is no
validation of `capacity`. -/
def baseMkWriter (capacity : Int) (table : String) : Except Unit DataWriter :=
  base_reset_buffer.map (fun b => ⟨[], b, capacity, table⟩)

/-- Modelled from the spec: the repository contains no `DataWriter`
subclass, and the spec describes the overriding resetter as
`initialize(fields)` — "resets the Buffer to an empty sequence for each
recognized field name".  It never raises. -/
def spec_reset_buffer (fields : List String) : Except Unit Buffer :=
  Except.ok (resetList fields)

/-- `DataWriter.__init__` on a subclass whose resetter is
`spec_reset_buffer`: stores capacity and table and resets the buffer.
Note there is no validation of `capacity` (handler.py:295-308). -/
def specMkWriter (fields : List String) (capacity : Int) (table : String) :
    Except Unit DataWriter :=
  (spec_reset_buffer fields).map (fun b => ⟨fields, b, capacity, table⟩)

/-- The successfully constructed subclass writer: empty buffer over the
recognized fields. -/
def freshWriter (fields : List String) (capacity : Int) (table : String) :
    DataWriter :=
  ⟨fields, resetList fields, capacity, table⟩

/-- One iteration of the loop body of `DataWriter._append_buffer`
(handler.py:317-324): `if key in self._buffer.keys():
self._buffer[key].append(data[key])`. -/
def appendOne (b : Buffer) (key : String) (val : Int) : Buffer :=
  if key ∈ b.map Prod.fst then
    b.map (fun p => if p.1 = key then (p.1, p.2 ++ [val]) else p)
  else
    b

/-- `DataWriter._append_buffer` (handler.py:317-324): for every key of the
record, in order, append its value to the matching buffer column if the key
is recognized; unrecognized keys are silently skipped. -/
def append_buffer (b : Buffer) (data : Record) : Buffer :=
  data.foldl (fun acc kv => appendOne acc kv.1 kv.2) b

/-- `DataWriter._buf_size` (handler.py:326-332): the length of the first
key's value list, or 0 when the buffer has no keys. -/
def buf_size : Buffer → Nat
  | [] => 0
  | p :: _ => p.2.length

/-- `DataWriter.flush` (handler.py:334-340): if the buffer is non-empty,
call the sink with the whole buffer and the table; if that call raises, the
exception propagates and `_reset_buffer` is never reached (the buffer is
left as it was); otherwise the buffer is reset. -/
def flush (sinkOk : Buffer → String → Bool) (w : DataWriter) : StepResult :=
  if 0 < buf_size w.buffer then
    if sinkOk w.buffer w.table then
      ⟨⟨w.fields, resetList w.fields, w.capacity, w.table⟩,
        [⟨w.buffer, w.table⟩], false⟩
    else
      ⟨w, [⟨w.buffer, w.table⟩], true⟩
  else
    ⟨w, [], false⟩

/-- `DataWriter.write` (handler.py:342-352): append the record, then flush
when `self._buf_size >= self._buf_capacity`. -/
def write (sinkOk : Buffer → String → Bool) (w : DataWriter) (data : Record) :
    StepResult :=
  let w1 : DataWriter := ⟨w.fields, append_buffer w.buffer data, w.capacity, w.table⟩
  if w.capacity ≤ (buf_size w1.buffer : Int) then
    flush sinkOk w1
  else
    ⟨w1, [], false⟩

/-- A caller driving a sequence of `write` calls, stopping at the first
exception that propagates (as a Python `for` loop around `write` would). -/
def runWrites (sinkOk : Buffer → String → Bool) (w : DataWriter) :
    List Record → StepResult
  | [] => ⟨w, [], false⟩
  | r :: rs =>
    let s := write sinkOk w r
    if s.raised then
      s
    else
      let s2 := runWrites sinkOk s.writer rs
      ⟨s2.writer, s.calls ++ s2.calls, s2.raised⟩

/-- Folding a whole record sequence into the buffer. -/
def append_all (b : Buffer) (records : List Record) : Buffer :=
  records.foldl append_buffer b

/-- The values a record holds for one key, in order. -/
def valuesFor (r : Record) (k : String) : List Int :=
  (r.filter (fun q => q.1 == k)).map Prod.snd

/-- A fully-populated, well-formed record over the given recognized fields:
it contains every recognized field, and (being a Python dict) its keys are
distinct. -/
def FullRecord (fields : List String) (r : Record) : Prop :=
  (∀ f ∈ fields, f ∈ r.map Prod.fst) ∧ (r.map Prod.fst).Nodup

instance (fields : List String) (r : Record) : Decidable (FullRecord fields r) := by
  unfold FullRecord
  infer_instance

/-- All value sequences of the buffer have length `n`. -/
def UniformLen (b : Buffer) (n : Nat) : Prop :=
  ∀ p ∈ b, p.2.length = n

instance (b : Buffer) (n : Nat) : Decidable (UniformLen b n) := by
  unfold UniformLen
  infer_instance

/-- A sink that always succeeds. -/
def alwaysOk : Buffer → String → Bool := fun _ _ => true

/-- A sink whose write always raises. -/
def neverOk : Buffer → String → Bool := fun _ _ => false

/-! ### Basic lemmas about the buffer operations -/

theorem appendOne_eq_map (b : Buffer) (k : String) (v : Int) :
    appendOne b k v = b.map (fun p => if p.1 = k then (p.1, p.2 ++ [v]) else p) := by
  unfold appendOne
  by_cases h : k ∈ b.map Prod.fst
  · rw [if_pos h]
  · rw [if_neg h]
    have hid : ∀ p ∈ b, (if p.1 = k then (p.1, p.2 ++ [v]) else p) = p := by
      intro p hp
      rw [if_neg]
      intro hpk
      exact h (hpk ▸ List.mem_map_of_mem Prod.fst hp)
    exact ((List.map_congr_left hid).trans (List.map_id b)).symm

theorem append_buffer_cons (b : Buffer) (kv : String × Int) (r : Record) :
    append_buffer b (kv :: r) = append_buffer (appendOne b kv.1 kv.2) r := rfl

theorem valuesFor_cons (q : String × Int) (r : Record) (k : String) :
    valuesFor (q :: r) k =
      if q.1 = k then q.2 :: valuesFor r k else valuesFor r k := by
  by_cases h : q.1 = k <;> simp [valuesFor, List.filter_cons, h]

theorem append_buffer_eq_map (r : Record) (b : Buffer) :
    append_buffer b r = b.map (fun p => (p.1, p.2 ++ valuesFor r p.1)) := by
  induction r generalizing b with
  | nil =>
    have : ∀ p ∈ b, (p.1, p.2 ++ valuesFor [] p.1) = p := by
      intro p _
      simp [valuesFor]
    exact ((List.map_congr_left this).trans (List.map_id b)).symm
  | cons kv r ih =>
    rw [append_buffer_cons, ih, appendOne_eq_map, List.map_map]
    apply List.map_congr_left
    intro p _
    by_cases hk : p.1 = kv.1
    · simp only [Function.comp_apply, if_pos hk, valuesFor_cons, hk]
      simp [List.append_assoc]
    · have hk2 : ¬ kv.1 = p.1 := fun h => hk h.symm
      simp only [Function.comp_apply, if_neg hk, valuesFor_cons, if_neg hk2]

theorem keys_append_buffer (b : Buffer) (r : Record) :
    (append_buffer b r).map Prod.fst = b.map Prod.fst := by
  rw [append_buffer_eq_map, List.map_map]
  exact List.map_congr_left (fun p _ => rfl)

theorem valuesFor_eq_nil (r : Record) (k : String) (h : k ∉ r.map Prod.fst) :
    valuesFor r k = [] := by
  induction r with
  | nil => rfl
  | cons q rest ih =>
    rw [valuesFor_cons, if_neg, ih]
    · intro hm
      exact h (by simp [hm])
    · intro hq
      exact h (by simp [hq])

theorem valuesFor_length_one (r : Record) (k : String)
    (h1 : k ∈ r.map Prod.fst) (h2 : (r.map Prod.fst).Nodup) :
    (valuesFor r k).length = 1 := by
  induction r with
  | nil => simp at h1
  | cons q rest ih =>
    simp only [List.map_cons, List.nodup_cons] at h2
    rw [valuesFor_cons]
    by_cases hq : q.1 = k
    · rw [if_pos hq, valuesFor_eq_nil rest k (hq ▸ h2.1)]
      rfl
    · rw [if_neg hq]
      apply ih ?_ h2.2
      rw [List.map_cons] at h1
      rcases List.mem_cons.mp h1 with he | he
      · exact absurd he.symm hq
      · exact he

theorem valuesFor_ne_nil (r : Record) (k : String) (h : k ∈ r.map Prod.fst) :
    valuesFor r k ≠ [] := by
  induction r with
  | nil => simp at h
  | cons q rest ih =>
    rw [valuesFor_cons]
    by_cases hq : q.1 = k
    · simp [if_pos hq]
    · rw [if_neg hq]
      apply ih
      rw [List.map_cons] at h
      rcases List.mem_cons.mp h with he | he
      · exact absurd he.symm hq
      · exact he

theorem uniform_append_buffer (b : Buffer) (r : Record) (m : Nat)
    (hu : UniformLen b m) (hr : FullRecord (b.map Prod.fst) r) :
    UniformLen (append_buffer b r) (m + 1) := by
  intro p hp
  rw [append_buffer_eq_map] at hp
  rcases List.mem_map.mp hp with ⟨q, hq, rfl⟩
  simp only [List.length_append]
  rw [hu q hq, valuesFor_length_one r q.1 (hr.1 q.1 (List.mem_map_of_mem Prod.fst hq)) hr.2]

theorem buf_size_eq_of_uniform (b : Buffer) (m : Nat) (hb : b ≠ [])
    (hu : UniformLen b m) : buf_size b = m := by
  cases b with
  | nil => exact absurd rfl hb
  | cons p l =>
    show p.2.length = m
    exact hu p (List.mem_cons_self p l)

theorem keys_resetList (fields : List String) :
    (resetList fields).map Prod.fst = fields := by
  unfold resetList
  rw [List.map_map]
  exact (List.map_congr_left (fun f _ => rfl)).trans (List.map_id fields)

theorem uniform_resetList (fields : List String) : UniformLen (resetList fields) 0 := by
  intro p hp
  simp only [resetList] at hp
  rcases List.mem_map.mp hp with ⟨f, _, rfl⟩
  rfl

theorem buf_size_resetList (fields : List String) : buf_size (resetList fields) = 0 := by
  cases fields with
  | nil => rfl
  | cons f l => rfl

theorem append_all_cons (b : Buffer) (r : Record) (rs : List Record) :
    append_all b (r :: rs) = append_all (append_buffer b r) rs := rfl

theorem append_all_uniform (records : List Record) (b : Buffer) (m : Nat)
    (hu : UniformLen b m)
    (hfull : ∀ r ∈ records, FullRecord (b.map Prod.fst) r) :
    (append_all b records).map Prod.fst = b.map Prod.fst ∧
    UniformLen (append_all b records) (m + records.length) := by
  induction records generalizing b m with
  | nil => exact ⟨rfl, by simpa using hu⟩
  | cons r rs ih =>
    have h1 := keys_append_buffer b r
    have h2 := uniform_append_buffer b r m hu (hfull r (List.mem_cons_self r rs))
    have h3 := ih (append_buffer b r) (m + 1) h2
      (fun q hq => by rw [h1]; exact hfull q (List.mem_cons_of_mem r hq))
    refine ⟨by rw [append_all_cons, h3.1, h1], ?_⟩
    have heq : m + (r :: rs).length = m + 1 + rs.length := by
      simp only [List.length_cons]
      omega
    rw [append_all_cons, heq]
    exact h3.2

/-! ### Computation lemmas for `write` and `flush` -/

theorem write_eq_of_not_full (sinkOk : Buffer → String → Bool) (w : DataWriter)
    (r : Record)
    (h : ¬ w.capacity ≤ (buf_size (append_buffer w.buffer r) : Int)) :
    write sinkOk w r =
      ⟨⟨w.fields, append_buffer w.buffer r, w.capacity, w.table⟩, [], false⟩ := by
  simp only [write]
  rw [if_neg h]

theorem write_eq_of_full_ok (sinkOk : Buffer → String → Bool) (w : DataWriter)
    (r : Record)
    (hfill : w.capacity ≤ (buf_size (append_buffer w.buffer r) : Int))
    (hpos : 0 < buf_size (append_buffer w.buffer r))
    (hok : sinkOk (append_buffer w.buffer r) w.table = true) :
    write sinkOk w r =
      ⟨⟨w.fields, resetList w.fields, w.capacity, w.table⟩,
        [⟨append_buffer w.buffer r, w.table⟩], false⟩ := by
  simp only [write, flush]
  rw [if_pos hfill, if_pos hpos, if_pos hok]

theorem write_eq_of_full_fail (sinkOk : Buffer → String → Bool) (w : DataWriter)
    (r : Record)
    (hfill : w.capacity ≤ (buf_size (append_buffer w.buffer r) : Int))
    (hpos : 0 < buf_size (append_buffer w.buffer r))
    (hfail : sinkOk (append_buffer w.buffer r) w.table = false) :
    write sinkOk w r =
      ⟨⟨w.fields, append_buffer w.buffer r, w.capacity, w.table⟩,
        [⟨append_buffer w.buffer r, w.table⟩], true⟩ := by
  simp only [write, flush]
  rw [if_pos hfill, if_pos hpos, if_neg (by simp [hfail])]

theorem buf_size_append_of_uniform (b : Buffer) (r : Record) (m : Nat)
    (hb : b ≠ []) (hu : UniformLen b m) (hr : FullRecord (b.map Prod.fst) r) :
    buf_size (append_buffer b r) = m + 1 := by
  apply buf_size_eq_of_uniform _ _ ?_ (uniform_append_buffer b r m hu hr)
  intro hnil
  apply hb
  have hkeys := keys_append_buffer b r
  rw [hnil] at hkeys
  cases b with
  | nil => rfl
  | cons p l => exact absurd hkeys.symm (by simp)

/-! ### Lemmas about whole `write` sequences -/

theorem runWrites_cons (sinkOk : Buffer → String → Bool) (w : DataWriter)
    (r : Record) (rs : List Record) :
    runWrites sinkOk w (r :: rs) =
      if (write sinkOk w r).raised then write sinkOk w r
      else
        ⟨(runWrites sinkOk (write sinkOk w r).writer rs).writer,
          (write sinkOk w r).calls ++ (runWrites sinkOk (write sinkOk w r).writer rs).calls,
          (runWrites sinkOk (write sinkOk w r).writer rs).raised⟩ := rfl

theorem runWrites_below (sinkOk : Buffer → String → Bool) (fields : List String)
    (c : Int) (t : String) (records : List Record) (b : Buffer) (m : Nat)
    (hf : fields ≠ []) (hk : b.map Prod.fst = fields) (hu : UniformLen b m)
    (hfull : ∀ r ∈ records, FullRecord fields r)
    (hlt : (m : Int) + records.length < c) :
    runWrites sinkOk ⟨fields, b, c, t⟩ records =
      ⟨⟨fields, append_all b records, c, t⟩, [], false⟩ := by
  induction records generalizing b m with
  | nil => rfl
  | cons r rs ih =>
    have hb : b ≠ [] := by
      intro hbe
      apply hf
      rw [← hk, hbe]
      rfl
    have hr : FullRecord (b.map Prod.fst) r := by
      rw [hk]
      exact hfull r (List.mem_cons_self r rs)
    have hsz : buf_size (append_buffer b r) = m + 1 :=
      buf_size_append_of_uniform b r m hb hu hr
    have hw : write sinkOk ⟨fields, b, c, t⟩ r =
        ⟨⟨fields, append_buffer b r, c, t⟩, [], false⟩ := by
      apply write_eq_of_not_full
      show ¬ c ≤ (buf_size (append_buffer b r) : Int)
      rw [hsz]
      simp only [List.length_cons] at hlt
      push_cast
      push_cast at hlt
      omega
    have hrec := ih (append_buffer b r) (m + 1)
      (by rw [keys_append_buffer]; exact hk)
      (uniform_append_buffer b r m hu hr)
      (fun q hq => hfull q (List.mem_cons_of_mem r hq))
      (by
        simp only [List.length_cons] at hlt ⊢
        push_cast
        push_cast at hlt
        omega)
    rw [runWrites_cons, hw]
    simp [hrec, append_all_cons]

theorem runWrites_exact (fields : List String) (c : Int) (t : String)
    (records : List Record) (b : Buffer) (m : Nat)
    (hf : fields ≠ []) (hk : b.map Prod.fst = fields) (hu : UniformLen b m)
    (hfull : ∀ r ∈ records, FullRecord fields r) (hne : records ≠ [])
    (heq : (m : Int) + records.length = c) :
    runWrites alwaysOk ⟨fields, b, c, t⟩ records =
      ⟨⟨fields, resetList fields, c, t⟩, [⟨append_all b records, t⟩], false⟩ := by
  induction records generalizing b m with
  | nil => exact absurd rfl hne
  | cons r rs ih =>
    have hb : b ≠ [] := by
      intro hbe
      apply hf
      rw [← hk, hbe]
      rfl
    have hr : FullRecord (b.map Prod.fst) r := by
      rw [hk]
      exact hfull r (List.mem_cons_self r rs)
    have hsz : buf_size (append_buffer b r) = m + 1 :=
      buf_size_append_of_uniform b r m hb hu hr
    cases rs with
    | nil =>
      have hw : write alwaysOk ⟨fields, b, c, t⟩ r =
          ⟨⟨fields, resetList fields, c, t⟩, [⟨append_buffer b r, t⟩], false⟩ := by
        apply write_eq_of_full_ok
        · show c ≤ (buf_size (append_buffer b r) : Int)
          rw [hsz]
          simp only [List.length_cons, List.length_nil] at heq
          push_cast
          push_cast at heq
          omega
        · rw [hsz]
          omega
        · rfl
      rw [runWrites_cons, hw]
      simp [runWrites, append_all]
    | cons r2 rs2 =>
      have hw : write alwaysOk ⟨fields, b, c, t⟩ r =
          ⟨⟨fields, append_buffer b r, c, t⟩, [], false⟩ := by
        apply write_eq_of_not_full
        show ¬ c ≤ (buf_size (append_buffer b r) : Int)
        rw [hsz]
        simp only [List.length_cons] at heq
        push_cast
        push_cast at heq
        omega
      have hrec := ih (append_buffer b r) (m + 1)
        (by rw [keys_append_buffer]; exact hk)
        (uniform_append_buffer b r m hu hr)
        (fun q hq => hfull q (List.mem_cons_of_mem r hq))
        (by simp)
        (by
          simp only [List.length_cons] at heq ⊢
          push_cast
          push_cast at heq
          omega)
      rw [runWrites_cons, hw]
      simp [hrec, append_all_cons]

theorem write_alwaysOk_not_raised (w : DataWriter) (r : Record) :
    (write alwaysOk w r).raised = false := by
  simp only [write, flush, alwaysOk]
  split
  · split
    · rfl
    · rfl
  · rfl

theorem write_buffer_cases (sinkOk : Buffer → String → Bool) (w : DataWriter)
    (r : Record) :
    (write sinkOk w r).writer.buffer = append_buffer w.buffer r ∨
    (write sinkOk w r).writer.buffer = resetList w.fields := by
  simp only [write, flush]
  split
  · split
    · split
      · right; rfl
      · left; rfl
    · left; rfl
  · left; rfl

/-- The three records of the worked example in the spec (Capacity 3,
fields t and v). -/
def ex3 : List Record :=
  [[("t", 1), ("v", 10)], [("t", 2), ("v", 20)], [("t", 3), ("v", 30)]]

/-- The first two records of the worked example in the spec. -/
def ex2 : List Record :=
  [[("t", 1), ("v", 10)], [("t", 2), ("v", 20)]]

/-! ### Claim C1 -/

/-- Claim C1, as stated, is refuted by a writer whose subclass resetter
recognizes no field: with positive Capacity 1, one `write` call with a
(vacuously) fully-populated record performs no sink write at all, because
`_buf_size` is 0 when the buffer has no keys, so the flush threshold is
never reached. -/
theorem C1_counterexample :
    FullRecord (freshWriter [] 1 "tbl").fields [] ∧ (0 : Int) < 1 ∧
    (runWrites alwaysOk (freshWriter [] 1 "tbl") [([] : Record)]).calls = [] ∧
    (runWrites alwaysOk (freshWriter [] 1 "tbl") [([] : Record)]).raised = false := by
  decide

/-- Claim C1 (amended with "at least one recognized field"): for every
DataWriter with at least one recognized field and positive Capacity, a
sequence of exactly Capacity `write` calls with fully-populated records
performs exactly one sink write, carrying the entire accumulated buffer
and the destination table; no sink write happens before the Capacity-th
call; no exception propagates; and the buffer is empty
(`buf_size` 0) immediately afterwards. -/
theorem C1_exact_capacity_flush (fields : List String) (c : Int) (t : String)
    (records : List Record) (hf : fields ≠ []) (hc : 0 < c)
    (hlen : (records.length : Int) = c)
    (hfull : ∀ r ∈ records, FullRecord fields r) :
    (runWrites alwaysOk (freshWriter fields c t) records).calls =
      [⟨append_all (resetList fields) records, t⟩] ∧
    (runWrites alwaysOk (freshWriter fields c t) records).raised = false ∧
    buf_size (runWrites alwaysOk (freshWriter fields c t) records).writer.buffer = 0 ∧
    ∀ k < records.length,
      (runWrites alwaysOk (freshWriter fields c t) (records.take k)).calls = [] := by
  have hne : records ≠ [] := by
    intro h
    rw [h] at hlen
    simp at hlen
    omega
  have hmain := runWrites_exact fields c t records (resetList fields) 0 hf
    (keys_resetList fields) (uniform_resetList fields) hfull hne (by push_cast at hlen ⊢; omega)
  have hfw : freshWriter fields c t = ⟨fields, resetList fields, c, t⟩ := rfl
  refine ⟨?_, ?_, ?_, ?_⟩
  · rw [hfw, hmain]
  · rw [hfw, hmain]
  · rw [hfw, hmain]
    exact buf_size_resetList fields
  · intro k hk
    have hb := runWrites_below alwaysOk fields c t (records.take k) (resetList fields) 0 hf
      (keys_resetList fields) (uniform_resetList fields)
      (fun q hq => hfull q (List.take_subset k records hq))
      (by
        have h1 : (records.take k).length ≤ k := List.length_take_le k records
        omega)
    rw [hfw, hb]

/-- Witness for C1 amended: the worked example of the spec (Capacity 3,
fields t and v): the three writes produce one sink call with the full
columns, and the buffer is empty afterwards. -/
theorem C1_exact_capacity_flush_witness :
    (runWrites alwaysOk (freshWriter ["t", "v"] 3 "tbl") ex3).calls =
      [⟨append_all (resetList ["t", "v"]) ex3, "tbl"⟩] ∧
    (runWrites alwaysOk (freshWriter ["t", "v"] 3 "tbl") ex3).raised = false ∧
    buf_size (runWrites alwaysOk (freshWriter ["t", "v"] 3 "tbl") ex3).writer.buffer = 0 ∧
    ∀ k < ex3.length,
      (runWrites alwaysOk (freshWriter ["t", "v"] 3 "tbl") (ex3.take k)).calls = [] :=
  C1_exact_capacity_flush ["t", "v"] 3 "tbl" ex3
    (by decide) (by decide) (by decide) (by decide)

/-! ### Claim C2 -/

/-- Claim C2, as stated, is refuted by a writer whose subclass resetter
recognizes no field: after N = 1 fully-populated `write` calls with
Capacity 2, no flush occurs (as claimed) but `_buf_size` is 0, not N. -/
theorem C2_counterexample :
    FullRecord (freshWriter [] 2 "tbl2").fields [] ∧ (1 : Int) < 2 ∧
    (runWrites alwaysOk (freshWriter [] 2 "tbl2") [([] : Record)]).calls = [] ∧
    buf_size (runWrites alwaysOk (freshWriter [] 2 "tbl2") [([] : Record)]).writer.buffer
      ≠ 1 := by
  decide

/-- Claim C2 (amended with "at least one recognized field"): for every
DataWriter with at least one recognized field, after N fully-populated
`write` calls with N < Capacity starting from an empty buffer, the sink
is never invoked, no exception propagates, and `buf_size` equals N. -/
theorem C2_below_capacity (fields : List String) (c : Int) (t : String)
    (records : List Record) (hf : fields ≠ [])
    (hlen : (records.length : Int) < c)
    (hfull : ∀ r ∈ records, FullRecord fields r) :
    (runWrites alwaysOk (freshWriter fields c t) records).calls = [] ∧
    (runWrites alwaysOk (freshWriter fields c t) records).raised = false ∧
    buf_size (runWrites alwaysOk (freshWriter fields c t) records).writer.buffer =
      records.length := by
  have hmain := runWrites_below alwaysOk fields c t records (resetList fields) 0 hf
    (keys_resetList fields) (uniform_resetList fields) hfull (by omega)
  have hfw : freshWriter fields c t = ⟨fields, resetList fields, c, t⟩ := rfl
  have hau := append_all_uniform records (resetList fields) 0 (uniform_resetList fields)
    (fun q hq => by rw [keys_resetList]; exact hfull q hq)
  refine ⟨by rw [hfw, hmain], by rw [hfw, hmain], ?_⟩
  rw [hfw, hmain]
  show buf_size (append_all (resetList fields) records) = records.length
  apply buf_size_eq_of_uniform _ _ ?_ (by simpa using hau.2)
  intro hnil
  apply hf
  have hkeys := hau.1
  rw [hnil, keys_resetList] at hkeys
  exact hkeys.symm

/-- Witness for C2 amended: the first two writes of the worked example
leave size 2 with no sink call. -/
theorem C2_below_capacity_witness :
    (runWrites alwaysOk (freshWriter ["t", "v"] 3 "tbl") ex2).calls = [] ∧
    (runWrites alwaysOk (freshWriter ["t", "v"] 3 "tbl") ex2).raised = false ∧
    buf_size (runWrites alwaysOk (freshWriter ["t", "v"] 3 "tbl") ex2).writer.buffer =
      ex2.length :=
  C2_below_capacity ["t", "v"] 3 "tbl" ex2 (by decide) (by decide) (by decide)

/-! ### Claim C3 -/

/-- Claim C3, as stated, is refuted: when the sink raises on the flush
triggered by a `write`, the exception does propagate, but the buffer is
NOT discarded — `_reset_buffer` is never reached, so the record stays in
the buffer and the next `write` starts from the retained contents, not
from an empty buffer. -/
theorem C3_counterexample :
    (write neverOk (freshWriter ["t"] 1 "tbl3") [("t", 5)]).raised = true ∧
    (write neverOk (freshWriter ["t"] 1 "tbl3") [("t", 5)]).writer.buffer =
      [("t", [5])] ∧
    buf_size (write neverOk (freshWriter ["t"] 1 "tbl3") [("t", 5)]).writer.buffer ≠ 0 ∧
    (write neverOk (write neverOk (freshWriter ["t"] 1 "tbl3") [("t", 5)]).writer
        [("t", 6)]).writer.buffer = [("t", [5, 6])] := by
  decide

/-- Claim C3 (amended): if the sink write raises during the flush
triggered by `write`, the exception propagates unmodified to the caller
and the buffer contents are RETAINED (the reset step is skipped), so a
subsequent `write` starts from the appended buffer, not from an empty
one. -/
theorem C3_flush_failure_retains (sinkOk : Buffer → String → Bool)
    (w : DataWriter) (r : Record)
    (hfill : w.capacity ≤ (buf_size (append_buffer w.buffer r) : Int))
    (hpos : 0 < buf_size (append_buffer w.buffer r))
    (hfail : sinkOk (append_buffer w.buffer r) w.table = false) :
    (write sinkOk w r).raised = true ∧
    (write sinkOk w r).writer =
      ⟨w.fields, append_buffer w.buffer r, w.capacity, w.table⟩ := by
  rw [write_eq_of_full_fail sinkOk w r hfill hpos hfail]
  exact ⟨rfl, rfl⟩

/-- Witness for C3 amended at a concrete input. -/
theorem C3_flush_failure_retains_witness :
    (write neverOk (freshWriter ["a"] 1 "t3") [("a", 9)]).raised = true ∧
    (write neverOk (freshWriter ["a"] 1 "t3") [("a", 9)]).writer =
      ⟨(freshWriter ["a"] 1 "t3").fields,
        append_buffer (freshWriter ["a"] 1 "t3").buffer [("a", 9)],
        (freshWriter ["a"] 1 "t3").capacity, (freshWriter ["a"] 1 "t3").table⟩ :=
  C3_flush_failure_retains neverOk (freshWriter ["a"] 1 "t3") [("a", 9)]
    (by decide) (by decide) (by decide)

/-! ### Claim C4 -/

/-- Claim C4: if the sink write raises during `flush` on a non-empty
buffer, then at the moment the exception propagates out of `flush` the
writer is exactly as it was before the call: the reset step is skipped,
the unflushed data is retained, and `buf_size` is unchanged. -/
theorem C4_flush_failure_state_unchanged (sinkOk : Buffer → String → Bool)
    (w : DataWriter) (hpos : 0 < buf_size w.buffer)
    (hfail : sinkOk w.buffer w.table = false) :
    flush sinkOk w = ⟨w, [⟨w.buffer, w.table⟩], true⟩ := by
  simp only [flush]
  rw [if_pos hpos, if_neg (by simp [hfail])]

/-- Witness for C4 at a concrete input: a direct below-capacity flush
whose sink raises leaves the two buffered values in place. -/
theorem C4_flush_failure_state_unchanged_witness :
    flush neverOk (⟨["x"], [("x", [1, 2])], 5, "t4"⟩ : DataWriter) =
      ⟨⟨["x"], [("x", [1, 2])], 5, "t4"⟩, [⟨[("x", [1, 2])], "t4"⟩], true⟩ :=
  C4_flush_failure_state_unchanged neverOk ⟨["x"], [("x", [1, 2])], 5, "t4"⟩
    (by decide) (by decide)

/-! ### Claim C5 -/

/-- Claim C5: a `write` whose record contains an unrecognized key does
not raise on account of that key (with a succeeding sink nothing raises;
`_append_buffer` itself is a total function), never adds that key to the
buffer, and still appends the values of the recognized fields: the
appended buffer is exactly the old buffer with, per column, the record
values for that column key appended. -/
theorem C5_unrecognized_dropped (w : DataWriter) (r : Record) (k : String)
    (hw : w.buffer.map Prod.fst = w.fields) (_hkr : k ∈ r.map Prod.fst)
    (hk : k ∉ w.fields) :
    (write alwaysOk w r).raised = false ∧
    k ∉ (write alwaysOk w r).writer.buffer.map Prod.fst ∧
    append_buffer w.buffer r =
      w.buffer.map (fun p => (p.1, p.2 ++ valuesFor r p.1)) := by
  refine ⟨write_alwaysOk_not_raised w r, ?_, append_buffer_eq_map r w.buffer⟩
  rcases write_buffer_cases alwaysOk w r with hcase | hcase
  · rw [hcase, keys_append_buffer, hw]
    exact hk
  · rw [hcase, keys_resetList]
    exact hk

/-- Witness for C5 at a concrete input: the key zz is dropped while t
and v are appended. -/
theorem C5_unrecognized_dropped_witness :
    (write alwaysOk (freshWriter ["t", "v"] 10 "t5")
        [("t", 1), ("zz", 99), ("v", 2)]).raised = false ∧
    "zz" ∉ (write alwaysOk (freshWriter ["t", "v"] 10 "t5")
        [("t", 1), ("zz", 99), ("v", 2)]).writer.buffer.map Prod.fst ∧
    append_buffer (freshWriter ["t", "v"] 10 "t5").buffer
        [("t", 1), ("zz", 99), ("v", 2)] =
      (freshWriter ["t", "v"] 10 "t5").buffer.map
        (fun p => (p.1, p.2 ++ valuesFor [("t", 1), ("zz", 99), ("v", 2)] p.1)) :=
  C5_unrecognized_dropped (freshWriter ["t", "v"] 10 "t5")
    [("t", 1), ("zz", 99), ("v", 2)] "zz" (by decide) (by decide) (by decide)

/-! ### Claim C6 -/

/-- Claim C6: calling `flush` on an empty buffer performs no sink write,
raises nothing, and leaves the writer state unchanged — a no-op. -/
theorem C6_flush_empty_noop (sinkOk : Buffer → String → Bool) (w : DataWriter)
    (h : buf_size w.buffer = 0) :
    flush sinkOk w = ⟨w, [], false⟩ := by
  simp only [flush]
  rw [if_neg (by omega)]

/-- Witness for C6 at a concrete input: flushing a fresh writer performs
no sink call even when every sink call would raise. -/
theorem C6_flush_empty_noop_witness :
    flush neverOk (freshWriter ["p", "q"] 4 "t6") =
      ⟨freshWriter ["p", "q"] 4 "t6", [], false⟩ :=
  C6_flush_empty_noop neverOk (freshWriter ["p", "q"] 4 "t6") (by decide)

/-! ### Claim C7 -/

/-- Claim C7: under the fully-populated-records precondition, every
completed operation leaves all value sequences of the buffer with equal
length: append takes uniform length m to m+1; flush leaves length m (when
it does not reset) or 0 (when it resets); write leaves m+1 or 0; and the
resetter produces uniform length 0. -/
theorem C7_uniform_lengths (sinkOk : Buffer → String → Bool) (w : DataWriter)
    (r : Record) (m : Nat) (hu : UniformLen w.buffer m)
    (hr : FullRecord (w.buffer.map Prod.fst) r) :
    UniformLen (append_buffer w.buffer r) (m + 1) ∧
    (UniformLen (flush sinkOk w).writer.buffer m ∨
      UniformLen (flush sinkOk w).writer.buffer 0) ∧
    (UniformLen (write sinkOk w r).writer.buffer (m + 1) ∨
      UniformLen (write sinkOk w r).writer.buffer 0) ∧
    UniformLen (resetList w.fields) 0 := by
  have happ := uniform_append_buffer w.buffer r m hu hr
  refine ⟨happ, ?_, ?_, uniform_resetList w.fields⟩
  · simp only [flush]
    split
    · split
      · right
        exact uniform_resetList w.fields
      · left
        exact hu
    · left
      exact hu
  · rcases write_buffer_cases sinkOk w r with hcase | hcase
    · left
      rw [hcase]
      exact happ
    · right
      rw [hcase]
      exact uniform_resetList w.fields

/-- Witness for C7 at a concrete input. -/
theorem C7_uniform_lengths_witness :
    UniformLen (append_buffer (⟨["t", "v"], [("t", [1]), ("v", [4])], 2, "t7"⟩ :
        DataWriter).buffer [("t", 2), ("v", 5)]) (1 + 1) ∧
    (UniformLen (flush alwaysOk
        (⟨["t", "v"], [("t", [1]), ("v", [4])], 2, "t7"⟩ : DataWriter)).writer.buffer 1 ∨
      UniformLen (flush alwaysOk
        (⟨["t", "v"], [("t", [1]), ("v", [4])], 2, "t7"⟩ : DataWriter)).writer.buffer 0) ∧
    (UniformLen (write alwaysOk (⟨["t", "v"], [("t", [1]), ("v", [4])], 2, "t7"⟩ :
        DataWriter) [("t", 2), ("v", 5)]).writer.buffer (1 + 1) ∨
      UniformLen (write alwaysOk (⟨["t", "v"], [("t", [1]), ("v", [4])], 2, "t7"⟩ :
        DataWriter) [("t", 2), ("v", 5)]).writer.buffer 0) ∧
    UniformLen (resetList (⟨["t", "v"], [("t", [1]), ("v", [4])], 2, "t7"⟩ :
        DataWriter).fields) 0 :=
  C7_uniform_lengths alwaysOk ⟨["t", "v"], [("t", [1]), ("v", [4])], 2, "t7"⟩
    [("t", 2), ("v", 5)] 1 (by decide) (by decide)

/-! ### Claim C8 -/

/-- Claim C8, as stated, is refuted: constructing a writer with
capacity 0 through a subclass resetter succeeds and produces a writer
instance — `__init__` performs no capacity validation — while the base
class constructor fails for every capacity, including a valid one,
because of its unimplemented resetter, not because of validation. -/
theorem C8_counterexample :
    specMkWriter ["t"] 0 "t8" = Except.ok ⟨["t"], [("t", [])], 0, "t8"⟩ ∧
    baseMkWriter 100 "t8" = Except.error () := by
  exact ⟨rfl, rfl⟩

/-- Claim C8 (amended): construction does not validate capacity at all:
for every capacity, including non-positive ones, a subclass construction
returns a writer instance, and the base-class construction fails with
the NotImplementedError of the resetter regardless of capacity. -/
theorem C8_no_capacity_validation (fields : List String) (c : Int) (t : String) :
    specMkWriter fields c t = Except.ok ⟨fields, resetList fields, c, t⟩ ∧
    baseMkWriter c t = Except.error () :=
  ⟨rfl, rfl⟩

/-! ### Claim C9 -/

/-- Claim C9: constructing the base DataWriter class directly always
raises NotImplementedError, because `__init__` unconditionally calls
`_reset_buffer`, whose base implementation raises; no usable base-class
instance can exist. -/
theorem C9_base_init_raises (c : Int) (t : String) :
    baseMkWriter c t = Except.error () :=
  rfl

/-! ### Claim C10 -/

/-- Claim C10, as stated, is refuted: with capacity 0 and recognized
fields t (first) and v, two `write` calls whose records contain the
recognized field v (but not the first field t) never reach the sink —
`_buf_size` reads only the first column, which stays empty — and the
buffer accumulates both values under v, holding more than one record. -/
theorem C10_counterexample :
    (runWrites alwaysOk (freshWriter ["t", "v"] 0 "ta")
        [[("v", 10)], [("v", 11)]]).calls = [] ∧
    (runWrites alwaysOk (freshWriter ["t", "v"] 0 "ta")
        [[("v", 10)], [("v", 11)]]).writer.buffer = [("t", []), ("v", [10, 11])] := by
  decide

/-- Claim C10 (amended: the record must contain the FIRST recognized
field of the buffer, not merely some recognized field): for every writer
with capacity ≤ 0, a `write` whose record contains the first buffer field
triggers an immediate flush — exactly one sink write of the appended
buffer — leaving the buffer empty after the call. -/
theorem C10_nonpositive_capacity (w : DataWriter) (f : String) (vs : List Int)
    (rest : Buffer) (r : Record) (hc : w.capacity ≤ 0)
    (hb : w.buffer = (f, vs) :: rest) (hf : f ∈ r.map Prod.fst) :
    (write alwaysOk w r).calls = [⟨append_buffer w.buffer r, w.table⟩] ∧
    buf_size (write alwaysOk w r).writer.buffer = 0 := by
  have hpos : 0 < buf_size (append_buffer w.buffer r) := by
    rw [append_buffer_eq_map, hb, List.map_cons]
    show 0 < (vs ++ valuesFor r f).length
    rw [List.length_append]
    have h1 : 0 < (valuesFor r f).length :=
      List.length_pos.mpr (valuesFor_ne_nil r f hf)
    omega
  have hfill : w.capacity ≤ (buf_size (append_buffer w.buffer r) : Int) :=
    le_trans hc (Int.natCast_nonneg _)
  rw [write_eq_of_full_ok alwaysOk w r hfill hpos rfl]
  exact ⟨rfl, buf_size_resetList w.fields⟩

/-- Witness for C10 amended at a concrete input. -/
theorem C10_nonpositive_capacity_witness :
    (write alwaysOk (freshWriter ["t", "v"] 0 "ta2") [("t", 7), ("v", 8)]).calls =
      [⟨append_buffer (freshWriter ["t", "v"] 0 "ta2").buffer [("t", 7), ("v", 8)],
        (freshWriter ["t", "v"] 0 "ta2").table⟩] ∧
    buf_size (write alwaysOk (freshWriter ["t", "v"] 0 "ta2")
        [("t", 7), ("v", 8)]).writer.buffer = 0 :=
  C10_nonpositive_capacity (freshWriter ["t", "v"] 0 "ta2") "t" [] [("v", [])]
    [("t", 7), ("v", 8)] (by decide) (by decide) (by decide)
